import Mathlib

/-!
Verification of the PR review-assignment service (usecase layer
`PRUseCase` and its storage contract) against its specification.

The Go usecase code is embedded shallowly: each storage round-trip is a
call into a `Storage` record of pure state-passing functions (the Go
repo interfaces), and every operation returns the final storage state
together with an `Except` result, so that partially committed writes are
observable.  `Mem` instantiates the storage contract with the pure
semantics of the Postgres repository (tables as row lists; queries
without ORDER BY preserve row order).
-/

namespace PRService

set_option autoImplicit false

/-- Modelled from the spec (the `entity` package is not in the sources;
fields follow §3 of the spec, the migration schema and all uses in the
usecase and repo code): a user row. -/
structure User where
  userID : String
  username : String
  teamName : String
  isActive : Bool
deriving Repr, DecidableEq

/-- Go `entity.PRStatus` is a string type in the source ("OPEN"/"MERGED"). -/
abbrev PRStatus := String

def PRStatusOpen : PRStatus := "OPEN"

def PRStatusMerged : PRStatus := "MERGED"

/-- Modelled from the spec (the `entity` package is not in the sources;
fields follow §3 of the spec, the migration schema and all uses in the
usecase and repo code): a pull-request record.  `time.Time` is modelled
as `Nat`; the nullable `merged_at` as `Option Nat`. -/
structure PullRequest where
  pullRequestID : String
  pullRequestName : String
  authorID : String
  status : PRStatus
  assignedReviewers : List String
  createdAt : Nat
  mergedAt : Option Nat
deriving Repr, DecidableEq

/-- Error values of the usecase layer (`ErrNotFound` … `ErrNoCandidate`)
together with the storage-layer errors it can pass through unchanged
(`postgres.ErrNotFound`, `postgres.ErrAlreadyExists`, and an opaque
storage failure). -/
inductive Err where
  | notFound
  | prExists
  | prMerged
  | notAssigned
  | noCandidate
  | repoNotFound
  | repoAlreadyExists
  | repoFail
deriving Repr, DecidableEq

/-- The storage contract consumed by `PRUseCase` (the Go `PRRepo` /
`UserRepo` interfaces, restricted to the methods the usecase calls).
Reads leave the state alone; writes return the new state paired with
their result, so a failed write can still have changed nothing or
anything, as the instance dictates. -/
structure Storage (σ : Type) where
  prGetByID : σ → String → Except Err PullRequest
  prCreate : σ → PullRequest → σ × Except Err Unit
  prUpdate : σ → PullRequest → σ × Except Err Unit
  prListAll : σ → Except Err (List PullRequest)
  userGetByID : σ → String → Except Err User
  userUpdate : σ → User → σ × Except Err Unit
  userListByTeam : σ → String → Except Err (List User)
  userListAll : σ → Except Err (List User)

/-- The `contains` helper at the bottom of the usecase file. -/
def contains : List String → String → Bool
  | [], _ => false
  | s :: rest, item => if s == item then true else contains rest item

/-- The reviewer-selection loop of `CreatePR`: walk the team members in
the order the roster was returned, appending every active non-author
member while fewer than two reviewers are collected. -/
def pickLoop (authorID : String) : List User → List String → List String
  | [], reviewers => reviewers
  | member :: rest, reviewers =>
      if member.userID != authorID && member.isActive && reviewers.length < 2 then
        pickLoop authorID rest (reviewers ++ [member.userID])
      else
        pickLoop authorID rest reviewers

def pickReviewers (teamMembers : List User) (authorID : String) : List String :=
  pickLoop authorID teamMembers []

/-- The removal loop of `ReassignReviewer`: delete the first occurrence
of `oldUserID`, or report that it was not found (`found = false`). -/
def removeReviewer : List String → String → Option (List String)
  | [], _ => none
  | reviewer :: rest, oldUserID =>
      if reviewer == oldUserID then some rest
      else
        match removeReviewer rest oldUserID with
        | some rest' => some (reviewer :: rest')
        | none => none

/-- The replacement-selection loop of `ReassignReviewer`: the first team
member (in returned roster order) that is active, not the author, not
already assigned and not the reviewer being replaced; `""` when the loop
finds none (`newReviewerID` keeps its zero value). -/
def findReplacement (authorID : String) (assigned : List String)
    (oldUserID : String) : List User → String
  | [] => ""
  | member :: rest =>
      if member.userID != authorID && member.isActive &&
          !(contains assigned member.userID) && member.userID != oldUserID then
        member.userID
      else
        findReplacement authorID assigned oldUserID rest

namespace PRUseCase

variable {σ : Type}

/-- Go `PRUseCase.CreatePR`, one storage call per Go statement. -/
def CreatePR (S : Storage σ) (s : σ) (prID prName authorID : String)
    (now : Nat) : σ × Except Err PullRequest :=
  let exists_ : Bool :=
    match S.prGetByID s prID with
    | .ok existing => existing.pullRequestID != ""
    | .error _ => false
  if exists_ then (s, .error .prExists)
  else
    match S.userGetByID s authorID with
    | .error _ => (s, .error .notFound)
    | .ok author =>
      match S.userListByTeam s author.teamName with
      | .error _ => (s, .error .notFound)
      | .ok teamMembers =>
        let reviewers := pickReviewers teamMembers authorID
        let pr : PullRequest :=
          { pullRequestID := prID
            pullRequestName := prName
            authorID := authorID
            status := PRStatusOpen
            assignedReviewers := reviewers
            createdAt := now
            mergedAt := none }
        match S.prCreate s pr with
        | (s', .ok _) => (s', .ok pr)
        | (s', .error e) => (s', .error e)

/-- Go `PRUseCase.MergePR`; `time.Now()` is the extra argument `now`. -/
def MergePR (S : Storage σ) (s : σ) (prID : String) (now : Nat) :
    σ × Except Err PullRequest :=
  match S.prGetByID s prID with
  | .error _ => (s, .error .notFound)
  | .ok pr =>
    if pr.status == PRStatusMerged then (s, .ok pr)
    else
      let pr' := { pr with status := PRStatusMerged, mergedAt := some now }
      match S.prUpdate s pr' with
      | (s', .ok _) => (s', .ok pr')
      | (s', .error e) => (s', .error e)

/-- Go `PRUseCase.ReassignReviewer`. -/
def ReassignReviewer (S : Storage σ) (s : σ) (prID oldUserID : String) :
    σ × Except Err (PullRequest × String) :=
  match S.prGetByID s prID with
  | .error _ => (s, .error .notFound)
  | .ok pr =>
    if pr.status == PRStatusMerged then (s, .error .prMerged)
    else
      match removeReviewer pr.assignedReviewers oldUserID with
      | none => (s, .error .notAssigned)
      | some reviewers' =>
        let pr1 := { pr with assignedReviewers := reviewers' }
        match S.userGetByID s pr1.authorID with
        | .error _ => (s, .error .notFound)
        | .ok author =>
          match S.userListByTeam s author.teamName with
          | .error _ => (s, .error .notFound)
          | .ok teamMembers =>
            let newReviewerID :=
              findReplacement pr1.authorID pr1.assignedReviewers oldUserID
                teamMembers
            if newReviewerID == "" then (s, .error .noCandidate)
            else
              let pr2 := { pr1 with
                assignedReviewers := pr1.assignedReviewers ++ [newReviewerID] }
              match S.prUpdate s pr2 with
              | (s', .ok _) => (s', .ok (pr2, newReviewerID))
              | (s', .error e) => (s', .error e)

/-- The per-user update loop of `DeactivateTeam`: persist each user with
`is_active = false`, stopping at the first persistence error. -/
def deactivateLoop (S : Storage σ) : σ → List User → σ × Except Err Unit
  | s, [] => (s, .ok ())
  | s, user :: rest =>
      match S.userUpdate s { user with isActive := false } with
      | (s', .ok _) => deactivateLoop S s' rest
      | (s', .error e) => (s', .error e)

/-- Go `PRUseCase.DeactivateTeam`; a `ListByTeam` error is returned as-is. -/
def DeactivateTeam (S : Storage σ) (s : σ) (teamName : String) :
    σ × Except Err Unit :=
  match S.userListByTeam s teamName with
  | .error e => (s, .error e)
  | .ok users => deactivateLoop S s users

/-- The stats payload (`map[string]interface{}` with six fixed keys);
`average_reviewers` (a Go `float64` holding a ratio of machine-size
integers) is modelled as an exact rational. -/
structure Stats where
  totalPRs : Nat
  totalUsers : Nat
  openPRs : Nat
  mergedPRs : Nat
  activeUsers : Nat
  averageReviewers : ℚ
deriving Repr, DecidableEq

/-- The PR counting loop of `GetStats`: `(open_prs, merged_prs,
totalReviewers)` accumulated across the PR list in order. -/
def prCounts : List PullRequest → Nat × Nat × Nat → Nat × Nat × Nat
  | [], acc => acc
  | pr :: rest, (o, m, t) =>
      if pr.status == PRStatusOpen then
        prCounts rest (o + 1, m, t + pr.assignedReviewers.length)
      else if pr.status == PRStatusMerged then
        prCounts rest (o, m + 1, t + pr.assignedReviewers.length)
      else
        prCounts rest (o, m, t + pr.assignedReviewers.length)

/-- The active-user counting loop of `GetStats`. -/
def activeCount : List User → Nat → Nat
  | [], acc => acc
  | user :: rest, acc =>
      if user.isActive then activeCount rest (acc + 1) else activeCount rest acc

/-- Go `PRUseCase.GetStats`: two reads, no writes (the return type carries
no storage state, matching a method that never calls a repo mutation). -/
def GetStats (S : Storage σ) (s : σ) : Except Err Stats :=
  match S.prListAll s with
  | .error e => .error e
  | .ok prs =>
    match S.userListAll s with
    | .error e => .error e
    | .ok users =>
      let (o, m, t) := prCounts prs (0, 0, 0)
      let active := activeCount users 0
      .ok
        { totalPRs := prs.length
          totalUsers := users.length
          openPRs := o
          mergedPRs := m
          activeUsers := active
          averageReviewers :=
            if prs.length > 0 then (t : ℚ) / (prs.length : ℚ) else 0 }

end PRUseCase

/-! ## In-memory storage: the pure semantics of the Postgres repository

Tables are row lists; a `SELECT … WHERE` without ORDER BY returns the
matching rows in stored row order (`UserRepo.ListByTeam` has no ORDER BY
in the source).  `GetStats` is the only caller of `ListAll`, and its
aggregates do not depend on the `ORDER BY created_at DESC` of
`PRRepo.ListAll`, which is therefore not modelled. -/

structure Mem where
  users : List User
  prs : List PullRequest
deriving Repr, DecidableEq

namespace Mem

/-- Go `UserRepo.GetByID`: `pgx.ErrNoRows` becomes `ErrNotFound`. -/
def userGetByID (s : Mem) (id : String) : Except Err User :=
  match s.users.find? (fun u => u.userID == id) with
  | some u => .ok u
  | none => .error .repoNotFound

/-- The column assignments of `UserRepo.Update` (`username`,
`team_name`, `is_active` are set; the key is not). -/
def applyUserUpd (u x : User) : User :=
  { x with username := u.username, teamName := u.teamName,
           isActive := u.isActive }

/-- Go `UserRepo.Update`: set the non-key columns of the row with this
`user_id`; `ErrNotFound` when no row is affected. -/
def userUpdate (s : Mem) (u : User) : Mem × Except Err Unit :=
  if s.users.any (fun x => x.userID == u.userID) then
    ({ s with users := s.users.map (fun x =>
        if x.userID == u.userID then applyUserUpd u x else x) }, .ok ())
  else (s, .error .repoNotFound)

/-- Go `UserRepo.ListByTeam`: `WHERE team_name = $1`, no ORDER BY — the
matching rows in stored order. -/
def userListByTeam (s : Mem) (teamName : String) : Except Err (List User) :=
  .ok (s.users.filter (fun u => u.teamName == teamName))

def userListAll (s : Mem) : Except Err (List User) :=
  .ok s.users

/-- Go `PRRepo.GetByID`. -/
def prGetByID (s : Mem) (id : String) : Except Err PullRequest :=
  match s.prs.find? (fun pr => pr.pullRequestID == id) with
  | some pr => .ok pr
  | none => .error .repoNotFound

/-- Go `PRRepo.Create`: INSERT; a duplicate-key violation becomes
`ErrAlreadyExists`. -/
def prCreate (s : Mem) (pr : PullRequest) : Mem × Except Err Unit :=
  if s.prs.any (fun x => x.pullRequestID == pr.pullRequestID) then
    (s, .error .repoAlreadyExists)
  else ({ s with prs := s.prs ++ [pr] }, .ok ())

/-- The column assignments of `PRRepo.Update` (note: `created_at` is not
in the SET list and keeps the stored value). -/
def applyUpd (pr x : PullRequest) : PullRequest :=
  { x with pullRequestName := pr.pullRequestName, authorID := pr.authorID,
           status := pr.status, assignedReviewers := pr.assignedReviewers,
           mergedAt := pr.mergedAt }

/-- Go `PRRepo.Update`: `ErrNotFound` when no row is affected. -/
def prUpdate (s : Mem) (pr : PullRequest) : Mem × Except Err Unit :=
  if s.prs.any (fun x => x.pullRequestID == pr.pullRequestID) then
    ({ s with prs := s.prs.map (fun x =>
        if x.pullRequestID == pr.pullRequestID then applyUpd pr x else x) },
     .ok ())
  else (s, .error .repoNotFound)

def prListAll (s : Mem) : Except Err (List PullRequest) :=
  .ok s.prs

end Mem

/-- The Postgres-backed storage seen through its pure row-list
semantics. -/
def memStorage : Storage Mem :=
  { prGetByID := Mem.prGetByID
    prCreate := Mem.prCreate
    prUpdate := Mem.prUpdate
    prListAll := Mem.prListAll
    userGetByID := Mem.userGetByID
    userUpdate := Mem.userUpdate
    userListByTeam := Mem.userListByTeam
    userListAll := Mem.userListAll }

/-- Operation `CreatePR` against the in-memory storage. -/
def Mem.createPR (s : Mem) (prID prName authorID : String) (now : Nat) :
    Mem × Except Err PullRequest :=
  PRUseCase.CreatePR memStorage s prID prName authorID now

/-- Operation `MergePR` against the in-memory storage. -/
def Mem.mergePR (s : Mem) (prID : String) (now : Nat) :
    Mem × Except Err PullRequest :=
  PRUseCase.MergePR memStorage s prID now

/-- Operation `ReassignReviewer` against the in-memory storage. -/
def Mem.reassignReviewer (s : Mem) (prID oldUserID : String) :
    Mem × Except Err (PullRequest × String) :=
  PRUseCase.ReassignReviewer memStorage s prID oldUserID

/-- Operation `DeactivateTeam` against the in-memory storage. -/
def Mem.deactivateTeam (s : Mem) (teamName : String) : Mem × Except Err Unit :=
  PRUseCase.DeactivateTeam memStorage s teamName

/-- Operation `GetStats` against the in-memory storage. -/
def Mem.getStats (s : Mem) : Except Err PRUseCase.Stats :=
  PRUseCase.GetStats memStorage s

/-- The documented PR invariant (§3): the author never reviews their
own PR, and the reviewer list is a duplicate-free set. -/
def PRInv (pr : PullRequest) : Prop :=
  pr.authorID ∉ pr.assignedReviewers ∧ pr.assignedReviewers.Nodup

/-- Storage states reachable from a PR-less state with a unique-keyed
user table through the three PR lifecycle operations (with any outcome,
successful or failed). -/
inductive Reach : Mem → Prop where
  | init : ∀ users : List User, (users.map User.userID).Nodup →
      Reach ⟨users, []⟩
  | create : ∀ (s : Mem) (prID prName authorID : String) (now : Nat)
      (s' : Mem) (r : Except Err PullRequest), Reach s →
      Mem.createPR s prID prName authorID now = (s', r) → Reach s'
  | merge : ∀ (s : Mem) (prID : String) (now : Nat) (s' : Mem)
      (r : Except Err PullRequest), Reach s →
      Mem.mergePR s prID now = (s', r) → Reach s'
  | reassign : ∀ (s : Mem) (prID oldUserID : String) (s' : Mem)
      (r : Except Err (PullRequest × String)), Reach s →
      Mem.reassignReviewer s prID oldUserID = (s', r) → Reach s'

/-- Test double over the in-memory storage whose roster read
(`UserRepo.ListByTeam`) fails, exercising the storage-failure path of
`CreatePR` ("the author's team roster cannot be read"). -/
def rosterFailStorage : Storage Mem :=
  { memStorage with userListByTeam := fun _ _ => .error .repoFail }

/-- Test double over the in-memory storage whose `UserRepo.Update`
fails on user id "u2", exercising the mid-loop persistence-error path
of `DeactivateTeam`. -/
def updateFailStorage : Storage Mem :=
  { memStorage with userUpdate := fun s u =>
      if u.userID == "u2" then (s, .error .repoFail)
      else Mem.userUpdate s u }

/-! ## Concrete states used by the witnesses and counterexamples -/

/-- The total number of assigned reviewers across a PR list. -/
def sumReviewers (l : List PullRequest) : Nat :=
  (l.map (fun pr => pr.assignedReviewers.length)).sum

/-- The storage state of the C1 divergence: the `backend` roster rows
are stored (and hence returned by the ORDER-BY-less `ListByTeam`) in
the order u1, u9, u2. -/
def c1Mem : Mem :=
  ⟨[⟨"u1", "Alice", "backend", true⟩, ⟨"u9", "Ivan", "backend", true⟩,
    ⟨"u2", "Bob", "backend", true⟩], []⟩

def c2aMem : Mem :=
  ⟨[⟨"u1", "Alice", "t", true⟩, ⟨"u2", "Bob", "t", true⟩,
    ⟨"u3", "Carl", "t", true⟩], []⟩

def c2bMem : Mem :=
  ⟨[⟨"u1", "Alice", "t", true⟩, ⟨"u2", "Bob", "t", false⟩], []⟩

/-- Witness for C3 at a concrete state: merging `pr-1003` twice. -/
def c3Mem : Mem :=
  ⟨[⟨"u1", "Alice", "backend", true⟩],
   [⟨"pr-1003", "Fix DB", "u1", PRStatusOpen, ["u2"], 3, none⟩]⟩

def c4Mem : Mem :=
  ⟨[⟨"u1", "Alice", "t", true⟩, ⟨"u2", "Bob", "t", true⟩,
    ⟨"u3", "Carl", "t", true⟩],
   [⟨"pr1", "n", "u1", PRStatusOpen, ["u2"], 0, none⟩]⟩

def c6mMem : Mem :=
  ⟨[], [⟨"pr1", "n", "u1", PRStatusMerged, ["u2"], 0, some 1⟩]⟩

def c6oMem : Mem :=
  ⟨[], [⟨"pr1", "n", "u1", PRStatusOpen, ["u2"], 0, none⟩]⟩

/-! ## Basic lemmas about the in-memory storage -/

theorem applyUpd_id (p x : PullRequest) :
    (Mem.applyUpd p x).pullRequestID = x.pullRequestID := rfl

theorem memStorage_prGetByID : memStorage.prGetByID = Mem.prGetByID := rfl

theorem memStorage_prCreate : memStorage.prCreate = Mem.prCreate := rfl

theorem memStorage_prUpdate : memStorage.prUpdate = Mem.prUpdate := rfl

theorem memStorage_prListAll : memStorage.prListAll = Mem.prListAll := rfl

theorem memStorage_userGetByID : memStorage.userGetByID = Mem.userGetByID := rfl

theorem memStorage_userUpdate : memStorage.userUpdate = Mem.userUpdate := rfl

theorem memStorage_userListByTeam :
    memStorage.userListByTeam = Mem.userListByTeam := rfl

theorem memStorage_userListAll : memStorage.userListAll = Mem.userListAll := rfl

theorem any_of_find? {α : Type} {l : List α} {p : α → Bool} {a : α}
    (h : l.find? p = some a) : l.any p = true :=
  List.any_eq_true.mpr ⟨a, List.mem_of_find?_eq_some h, List.find?_some h⟩

theorem prGetByID_ok {s : Mem} {id : String} {pr : PullRequest} :
    Mem.prGetByID s id = .ok pr ↔
      s.prs.find? (fun x => x.pullRequestID == id) = some pr := by
  unfold Mem.prGetByID
  cases s.prs.find? (fun x => x.pullRequestID == id) <;> simp

theorem userGetByID_ok {s : Mem} {id : String} {u : User} :
    Mem.userGetByID s id = .ok u ↔
      s.users.find? (fun x => x.userID == id) = some u := by
  unfold Mem.userGetByID
  cases s.users.find? (fun x => x.userID == id) <;> simp

/-- After `PRRepo.Update` with a record `p` keyed like the row that
`find?` located, the located row is the updated one. -/
theorem find?_map_applyUpd {prs : List PullRequest} {q pr0 : PullRequest}
    {id : String} (hid : q.pullRequestID = id)
    (h : prs.find? (fun x => x.pullRequestID == id) = some pr0) :
    (prs.map (fun x =>
        if x.pullRequestID == q.pullRequestID then Mem.applyUpd q x else x)).find?
      (fun x => x.pullRequestID == id) = some (Mem.applyUpd q pr0) := by
  subst hid
  induction prs with
  | nil => exact absurd h (by simp)
  | cons a rest ih =>
    rw [List.map_cons]
    by_cases ha : (a.pullRequestID == q.pullRequestID) = true
    · rw [if_pos ha]
      simp only [List.find?_cons, ha] at h
      injection h with h
      subst h
      simp only [List.find?_cons, applyUpd_id, ha]
    · rw [if_neg ha]
      simp only [List.find?_cons, ha, Bool.false_eq_true, if_false] at h
      simp only [List.find?_cons, ha, Bool.false_eq_true, if_false]
      exact ih h

/-! ## Characterizations of `MergePR` on the in-memory storage -/

theorem mergePR_not_found {s : Mem} {prID : String} (now : Nat)
    (hf : s.prs.find? (fun x => x.pullRequestID == prID) = none) :
    Mem.mergePR s prID now = (s, .error .notFound) := by
  simp only [Mem.mergePR, PRUseCase.MergePR, memStorage_prGetByID,
    Mem.prGetByID, hf]

theorem mergePR_merged {s : Mem} {prID : String} {pr : PullRequest} (now : Nat)
    (hf : s.prs.find? (fun x => x.pullRequestID == prID) = some pr)
    (hm : (pr.status == PRStatusMerged) = true) :
    Mem.mergePR s prID now = (s, .ok pr) := by
  simp only [Mem.mergePR, PRUseCase.MergePR, memStorage_prGetByID,
    Mem.prGetByID, hf, hm, if_true]

theorem mergePR_open {s : Mem} {prID : String} {pr : PullRequest} (now : Nat)
    (hf : s.prs.find? (fun x => x.pullRequestID == prID) = some pr)
    (hm : (pr.status == PRStatusMerged) = false) :
    Mem.mergePR s prID now =
      ({ s with prs := s.prs.map (fun x =>
          if x.pullRequestID == pr.pullRequestID then
            Mem.applyUpd { pr with status := PRStatusMerged, mergedAt := some now } x
          else x) },
       .ok { pr with status := PRStatusMerged, mergedAt := some now }) := by
  have hany : s.prs.any (fun x => (x.pullRequestID == pr.pullRequestID)) = true :=
    List.any_eq_true.mpr ⟨pr, List.mem_of_find?_eq_some hf, by simp⟩
  simp only [Mem.mergePR, PRUseCase.MergePR, memStorage_prGetByID,
    Mem.prGetByID, memStorage_prUpdate, Mem.prUpdate, hf, hm, hany,
    Bool.false_eq_true, if_false, if_true]

/-! ## Lemmas about the selection helpers -/

theorem contains_eq_true {l : List String} {x : String} :
    contains l x = true ↔ x ∈ l := by
  induction l with
  | nil => simp [contains]
  | cons a rest ih =>
    by_cases hax : (a == x) = true
    · have ha : a = x := eq_of_beq hax
      subst ha
      simp [contains]
    · have hne : x ≠ a := fun he => hax (by rw [he]; exact beq_self_eq_true a)
      simp [contains, hax, ih, hne]

theorem contains_eq_false {l : List String} {x : String} :
    contains l x = false ↔ x ∉ l := by
  simp [← contains_eq_true]

theorem removeReviewer_decomp {l : List String} {x : String} {rs : List String}
    (h : removeReviewer l x = some rs) :
    ∃ l1 l2, l = l1 ++ x :: l2 ∧ rs = l1 ++ l2 ∧ x ∉ l1 := by
  induction l generalizing rs with
  | nil => simp [removeReviewer] at h
  | cons a rest ih =>
    by_cases hax : (a == x) = true
    · have ha : a = x := eq_of_beq hax
      subst ha
      simp only [removeReviewer, beq_self_eq_true, if_true] at h
      injection h with h
      exact ⟨[], rest, rfl, by rw [← h]; rfl, by simp⟩
    · have hne : a ≠ x := fun he => hax (by rw [he]; exact beq_self_eq_true x)
      simp only [removeReviewer, hax, Bool.false_eq_true, if_false] at h
      cases hr : removeReviewer rest x with
      | none => rw [hr] at h; exact absurd h (by simp)
      | some rest' =>
        rw [hr] at h
        injection h with h
        obtain ⟨l1, l2, he1, he2, hx1⟩ := ih hr
        refine ⟨a :: l1, l2, by rw [List.cons_append, ← he1],
          by rw [← h, List.cons_append, ← he2], ?_⟩
        simp only [List.mem_cons, not_or]
        exact ⟨fun he => hne he.symm, hx1⟩

theorem removeReviewer_subset {l : List String} {x : String} {rs : List String}
    (h : removeReviewer l x = some rs) :
    (∀ y ∈ rs, y ∈ l) ∧ (∀ y ∈ l, y = x ∨ y ∈ rs) ∧ x ∈ l := by
  obtain ⟨l1, l2, he1, he2, -⟩ := removeReviewer_decomp h
  subst he1 he2
  refine ⟨fun y hy => ?_, fun y hy => ?_, by simp⟩
  · simp only [List.mem_append] at hy
    simp only [List.mem_append, List.mem_cons]
    tauto
  · simp only [List.mem_append, List.mem_cons] at hy
    simp only [List.mem_append]
    tauto

theorem removeReviewer_nodup {l : List String} {x : String} {rs : List String}
    (h : removeReviewer l x = some rs) (hnd : l.Nodup) :
    rs.Nodup ∧ x ∉ rs := by
  obtain ⟨l1, l2, he1, he2, -⟩ := removeReviewer_decomp h
  subst he1 he2
  rw [List.nodup_append] at hnd
  obtain ⟨h1, h2, hdisj⟩ := hnd
  rw [List.nodup_cons] at h2
  refine ⟨List.nodup_append.mpr ⟨h1, h2.2, fun y hy1 hy2 => hdisj hy1 (by simp [hy2])⟩, ?_⟩
  simp only [List.mem_append, not_or]
  exact ⟨fun hx1 => hdisj hx1 (by simp), h2.1⟩

theorem findReplacement_some {a oldU : String} {asg : List String}
    {ms : List User} {v : String}
    (hv : findReplacement a asg oldU ms = v) (hne : v ≠ "") :
    ∃ m ∈ ms, m.userID = v ∧ m.userID ≠ a ∧ m.isActive = true ∧
      m.userID ∉ asg ∧ m.userID ≠ oldU := by
  induction ms generalizing v with
  | nil => exact absurd hv.symm hne
  | cons m rest ih =>
    by_cases hc : (m.userID != a && m.isActive && !(contains asg m.userID) &&
        m.userID != oldU) = true
    · rw [findReplacement, if_pos hc] at hv
      simp only [Bool.and_eq_true, bne_iff_ne, ne_eq, Bool.not_eq_true'] at hc
      exact ⟨m, by simp, hv, hc.1.1.1, hc.1.1.2, contains_eq_false.mp hc.1.2,
        hc.2⟩
    · rw [findReplacement, if_neg hc] at hv
      obtain ⟨m', hm', hrest⟩ := ih hv hne
      exact ⟨m', by simp [hm'], hrest⟩

theorem findReplacement_empty {a oldU : String} {asg : List String}
    {ms : List User}
    (h : ∀ m ∈ ms, ¬(m.userID ≠ a ∧ m.isActive = true ∧ m.userID ∉ asg ∧
      m.userID ≠ oldU)) :
    findReplacement a asg oldU ms = "" := by
  induction ms with
  | nil => rfl
  | cons m rest ih =>
    have hc : (m.userID != a && m.isActive && !(contains asg m.userID) &&
        m.userID != oldU) ≠ true := by
      intro hc
      simp only [Bool.and_eq_true, bne_iff_ne, ne_eq, Bool.not_eq_true'] at hc
      exact h m (by simp)
        ⟨hc.1.1.1, hc.1.1.2, contains_eq_false.mp hc.1.2, hc.2⟩
    rw [findReplacement, if_neg hc]
    exact ih fun m' hm' => h m' (by simp [hm'])

/-! ## Lemmas about the `CreatePR` reviewer-selection loop -/

theorem pickLoop_length {a : String} (ms : List User) (acc : List String)
    (hacc : acc.length ≤ 2) :
    (pickLoop a ms acc).length =
      min 2 (acc.length +
        (ms.filter (fun m => m.userID != a && m.isActive)).length) := by
  induction ms generalizing acc with
  | nil => simp [pickLoop]; omega
  | cons m rest ih =>
    by_cases he : (m.userID != a && m.isActive) = true
    · by_cases hl : acc.length < 2
      · have hc : (m.userID != a && m.isActive && decide (acc.length < 2)) =
            true := by
          rw [Bool.and_eq_true, he, decide_eq_true hl]
          exact ⟨rfl, rfl⟩
        rw [pickLoop, if_pos hc, ih _ (by simp; omega)]
        simp only [List.filter_cons, he, if_true, List.length_cons,
          List.length_append, List.length_nil]
        omega
      · have hc : (m.userID != a && m.isActive && decide (acc.length < 2)) =
            false := by
          rw [Bool.and_eq_false_iff]
          exact Or.inr (decide_eq_false hl)
        rw [pickLoop, if_neg (by rw [hc]; exact Bool.false_ne_true), ih _ hacc]
        simp only [List.filter_cons, he, if_true, List.length_cons]
        omega
    · have hc : (m.userID != a && m.isActive && decide (acc.length < 2)) =
          false := by
        rw [Bool.and_eq_false_iff]
        exact Or.inl (by simpa using he)
      rw [pickLoop, if_neg (by rw [hc]; exact Bool.false_ne_true), ih _ hacc]
      simp only [List.filter_cons, he, Bool.false_eq_true, if_false]

theorem pickLoop_mem {a : String} {ms : List User} {acc : List String}
    {x : String} (hx : x ∈ pickLoop a ms acc) :
    x ∈ acc ∨ ∃ m ∈ ms, m.userID = x ∧ m.userID ≠ a ∧ m.isActive = true := by
  induction ms generalizing acc with
  | nil => exact Or.inl hx
  | cons m rest ih =>
    rw [pickLoop] at hx
    by_cases hc : (m.userID != a && m.isActive && decide (acc.length < 2)) =
        true
    · rw [if_pos hc] at hx
      simp only [Bool.and_eq_true, bne_iff_ne, ne_eq,
        decide_eq_true_eq] at hc
      rcases ih hx with hin | ⟨m', hm', hrest⟩
      · rcases List.mem_append.mp hin with h1 | h1
        · exact Or.inl h1
        · exact Or.inr ⟨m, by simp, (List.mem_singleton.mp h1).symm, hc.1.1, hc.1.2⟩
      · exact Or.inr ⟨m', by simp [hm'], hrest⟩
    · rw [if_neg hc] at hx
      rcases ih hx with hin | ⟨m', hm', hrest⟩
      · exact Or.inl hin
      · exact Or.inr ⟨m', by simp [hm'], hrest⟩

theorem pickLoop_nodup {a : String} {ms : List User} {acc : List String}
    (hnd : (ms.map User.userID).Nodup) (hacc : acc.Nodup)
    (hdisj : ∀ m ∈ ms, m.userID ∉ acc) :
    (pickLoop a ms acc).Nodup := by
  induction ms generalizing acc with
  | nil => exact hacc
  | cons m rest ih =>
    rw [List.map_cons, List.nodup_cons] at hnd
    rw [pickLoop]
    by_cases hc : (m.userID != a && m.isActive && decide (acc.length < 2)) =
        true
    · rw [if_pos hc]
      refine ih hnd.2 ?_ ?_
      · rw [List.nodup_append]
        exact ⟨hacc, List.nodup_singleton _,
          fun y hy1 hy2 => by
            rw [List.mem_singleton] at hy2
            subst hy2
            exact hdisj m (by simp) hy1⟩
      · intro m' hm'
        rw [List.mem_append, List.mem_singleton]
        rintro (h1 | h1)
        · exact hdisj m' (by simp [hm']) h1
        · exact hnd.1 (h1 ▸ List.mem_map_of_mem User.userID hm')
    · rw [if_neg hc]
      exact ih hnd.2 hacc fun m' hm' => hdisj m' (by simp [hm'])

/-! ## `ReassignReviewer` helper lemmas -/

theorem removeReviewer_none {l : List String} {x : String} :
    removeReviewer l x = none ↔ x ∉ l := by
  induction l with
  | nil => simp [removeReviewer]
  | cons a rest ih =>
    by_cases hax : (a == x) = true
    · have hax' : a = x := eq_of_beq hax
      subst hax'
      simp [removeReviewer]
    · have hne : a ≠ x := fun he => hax (by rw [he]; exact beq_self_eq_true x)
      simp only [removeReviewer, hax, Bool.false_eq_true, if_false]
      cases hr : removeReviewer rest x with
      | some rest' =>
        have hmem : x ∈ rest := by
          by_contra hx
          rw [ih.mpr hx] at hr
          exact Option.noConfusion hr
        simp [hmem]
      | none =>
        have hx : x ∉ rest := ih.mp hr
        simp only [List.mem_cons]
        exact ⟨fun _ h => h.elim (fun he => hne he.symm) (fun hm => hx hm),
          fun _ => trivial⟩

theorem reassign_merged {s : Mem} {prID oldUserID : String} {pr : PullRequest}
    (hf : s.prs.find? (fun x => x.pullRequestID == prID) = some pr)
    (hm : (pr.status == PRStatusMerged) = true) :
    Mem.reassignReviewer s prID oldUserID = (s, .error .prMerged) := by
  simp only [Mem.reassignReviewer, PRUseCase.ReassignReviewer,
    memStorage_prGetByID, Mem.prGetByID, hf, hm, if_true]

theorem reassign_not_assigned {s : Mem} {prID oldUserID : String}
    {pr : PullRequest}
    (hf : s.prs.find? (fun x => x.pullRequestID == prID) = some pr)
    (hm : (pr.status == PRStatusMerged) = false)
    (hrem : removeReviewer pr.assignedReviewers oldUserID = none) :
    Mem.reassignReviewer s prID oldUserID = (s, .error .notAssigned) := by
  simp only [Mem.reassignReviewer, PRUseCase.ReassignReviewer,
    memStorage_prGetByID, Mem.prGetByID, hf, hm, hrem,
    Bool.false_eq_true, if_false]

/-- Shape of a successful `ReassignReviewer` run: the storage reads it
performed, the replacement chosen by the selection loop, and the update
it persisted. -/
theorem reassign_ok_shape {s : Mem} {prID oldUserID : String} {s' : Mem}
    {pr' : PullRequest} {newID : String}
    (h : Mem.reassignReviewer s prID oldUserID = (s', .ok (pr', newID))) :
    ∃ pr rs author,
      s.prs.find? (fun x => x.pullRequestID == prID) = some pr ∧
      (pr.status == PRStatusMerged) = false ∧
      removeReviewer pr.assignedReviewers oldUserID = some rs ∧
      s.users.find? (fun x => x.userID == pr.authorID) = some author ∧
      findReplacement pr.authorID rs oldUserID
        (s.users.filter (fun u => u.teamName == author.teamName)) = newID ∧
      newID ≠ "" ∧
      pr' = { pr with assignedReviewers := rs ++ [newID] } ∧
      Mem.prUpdate s { pr with assignedReviewers := rs ++ [newID] } =
        (s', .ok ()) := by
  simp only [Mem.reassignReviewer, PRUseCase.ReassignReviewer,
    memStorage_prGetByID, Mem.prGetByID, memStorage_userGetByID,
    Mem.userGetByID, memStorage_userListByTeam, Mem.userListByTeam,
    memStorage_prUpdate] at h
  cases hf : s.prs.find? (fun x => x.pullRequestID == prID) with
  | none => rw [hf] at h; simp at h
  | some pr =>
    rw [hf] at h
    simp only at h
    by_cases hm : (pr.status == PRStatusMerged) = true
    · rw [if_pos hm] at h
      simp at h
    · rw [if_neg hm] at h
      cases hrem : removeReviewer pr.assignedReviewers oldUserID with
      | none => rw [hrem] at h; simp at h
      | some rs =>
        rw [hrem] at h
        simp only at h
        cases hauth : s.users.find? (fun x => x.userID == pr.authorID) with
        | none => rw [hauth] at h; simp at h
        | some author =>
          rw [hauth] at h
          simp only at h
          by_cases hz : (findReplacement pr.authorID rs oldUserID
              (s.users.filter (fun u => u.teamName == author.teamName)) == "")
              = true
          · rw [if_pos hz] at h
            simp at h
          · rw [if_neg hz] at h
            rcases hu : Mem.prUpdate s
                { pr with assignedReviewers := rs ++ [findReplacement
                  pr.authorID rs oldUserID (s.users.filter
                    (fun u => u.teamName == author.teamName))] } with ⟨s2, r2⟩
            rw [hu] at h
            cases r2 with
            | error e => simp at h
            | ok u =>
              simp only [Prod.mk.injEq] at h
              obtain ⟨hs2, hok⟩ := h
              injection hok with hok
              injection hok with hok1 hok2
              subst hok2
              subst hs2
              refine ⟨pr, rs, author, ?_, Bool.eq_false_iff.mpr hm, ?_, ?_,
                rfl, ?_, hok1.symm, ?_⟩
              · first
                | exact hf
                | rfl
              · first
                | exact hrem
                | rfl
              · first
                | exact hauth
                | rfl
              · intro hemp
                exact hz (by rw [hemp]; rfl)
              · first
                | exact hu
                | rfl

/-- Operation `ReassignReviewer` fails `NoCandidate` when the selection loop comes
back empty. -/
theorem reassign_no_candidate {s : Mem} {prID oldUserID : String}
    {pr : PullRequest} {rs : List String} {author : User}
    (hf : s.prs.find? (fun x => x.pullRequestID == prID) = some pr)
    (hm : (pr.status == PRStatusMerged) = false)
    (hrem : removeReviewer pr.assignedReviewers oldUserID = some rs)
    (hauth : s.users.find? (fun x => x.userID == pr.authorID) = some author)
    (hrep : findReplacement pr.authorID rs oldUserID
      (s.users.filter (fun u => u.teamName == author.teamName)) = "") :
    Mem.reassignReviewer s prID oldUserID = (s, .error .noCandidate) := by
  simp only [Mem.reassignReviewer, PRUseCase.ReassignReviewer,
    memStorage_prGetByID, Mem.prGetByID, memStorage_userGetByID,
    Mem.userGetByID, memStorage_userListByTeam, Mem.userListByTeam, hf, hm,
    Bool.false_eq_true, if_false, hrem, hauth, hrep]
  rfl

/-! ## Claim C4 -/

/-- C4: after a successful `ReassignReviewer`, `oldUserID` is gone from
the reviewer set and exactly one id was appended: an active member of
the author's team who is not the author, was not already assigned, and
is not `oldUserID`; the returned id is that member's.  When no team
member satisfies the eligibility predicate, the call fails
`NoCandidate`. -/
theorem C4_reassign_post (s : Mem) (prID oldUserID : String)
    (pr : PullRequest) (hget : Mem.prGetByID s prID = .ok pr)
    (hnd : pr.assignedReviewers.Nodup) :
    (∀ s' pr' newID,
      Mem.reassignReviewer s prID oldUserID = (s', .ok (pr', newID)) →
      oldUserID ∉ pr'.assignedReviewers ∧
      (∃ rs, removeReviewer pr.assignedReviewers oldUserID = some rs ∧
        pr'.assignedReviewers = rs ++ [newID] ∧ newID ∉ rs) ∧
      newID ∉ pr.assignedReviewers ∧
      (∃ author m,
        Mem.userGetByID s pr.authorID = .ok author ∧
        m ∈ s.users.filter (fun u => u.teamName == author.teamName) ∧
        m.userID = newID ∧ m.isActive = true ∧
        newID ≠ pr.authorID ∧ newID ≠ oldUserID)) ∧
    (∀ author rs,
      pr.status ≠ PRStatusMerged →
      removeReviewer pr.assignedReviewers oldUserID = some rs →
      Mem.userGetByID s pr.authorID = .ok author →
      (∀ m ∈ s.users.filter (fun u => u.teamName == author.teamName),
        ¬(m.userID ≠ pr.authorID ∧ m.isActive = true ∧
          m.userID ∉ rs ∧ m.userID ≠ oldUserID)) →
      Mem.reassignReviewer s prID oldUserID = (s, .error .noCandidate)) := by
  rw [prGetByID_ok] at hget
  constructor
  · intro s' pr' newID h
    obtain ⟨pr0, rs, author, hf0, hm0, hrem0, hauth0, hrep0, hne0, hpr0,
      hupd0⟩ := reassign_ok_shape h
    rw [hget] at hf0
    injection hf0 with hf0
    subst hf0
    obtain ⟨m, hmro, hmid, hmna, hmact, hmnasg, hmnold⟩ :=
      findReplacement_some hrep0 hne0
    have hrmn := removeReviewer_nodup hrem0 hnd
    have hrms := removeReviewer_subset hrem0
    have hnewasg : newID ∉ rs := hmid ▸ hmnasg
    refine ⟨?_, ⟨rs, hrem0, by rw [hpr0], hnewasg⟩, ?_, ?_⟩
    · rw [hpr0]
      simp only [List.mem_append, List.mem_singleton, not_or]
      exact ⟨hrmn.2, fun he => (hmid ▸ hmnold) he.symm⟩
    · intro hnew
      rcases hrms.2.1 newID hnew with he | hin
      · exact (hmid ▸ hmnold) he
      · exact hnewasg hin
    · exact ⟨author, m, userGetByID_ok.mpr hauth0, hmro, hmid,
        hmact, hmid ▸ hmna, hmid ▸ hmnold⟩
  · intro author rs hm hrem hauth hnone
    refine reassign_no_candidate hget (beq_eq_false_iff_ne.mpr hm) hrem
      (userGetByID_ok.mp hauth) ?_
    exact findReplacement_empty hnone

theorem C4_witness :
    ("u2" ∉ (⟨"pr1", "n", "u1", PRStatusOpen, ["u3"], 0, none⟩ :
        PullRequest).assignedReviewers ∧
      (∃ rs, removeReviewer ["u2"] "u2" = some rs ∧
        (["u3"] : List String) = rs ++ ["u3"] ∧ "u3" ∉ rs) ∧
      "u3" ∉ (["u2"] : List String) ∧
      (∃ author m,
        Mem.userGetByID c4Mem "u1" = .ok author ∧
        m ∈ c4Mem.users.filter (fun u => u.teamName == author.teamName) ∧
        m.userID = "u3" ∧ m.isActive = true ∧
        ("u3" : String) ≠ "u1" ∧ ("u3" : String) ≠ "u2")) := by
  have h := (C4_reassign_post c4Mem "pr1" "u2"
    ⟨"pr1", "n", "u1", PRStatusOpen, ["u2"], 0, none⟩ rfl (by decide)).1
    (Mem.reassignReviewer c4Mem "pr1" "u2").1
    ⟨"pr1", "n", "u1", PRStatusOpen, ["u3"], 0, none⟩ "u3" rfl
  exact h

/-! ## State-shape lemmas for the three lifecycle operations -/

theorem createPR_error_state {s s' : Mem} {a b c : String} {n : Nat} {e : Err}
    (h : Mem.createPR s a b c n = (s', .error e)) : s' = s := by
  simp only [Mem.createPR, PRUseCase.CreatePR, memStorage_prGetByID,
    Mem.prGetByID, memStorage_userGetByID, Mem.userGetByID,
    memStorage_userListByTeam, Mem.userListByTeam, memStorage_prCreate,
    Mem.prCreate] at h
  split at h
  · simp only [Prod.mk.injEq] at h
    exact h.1.symm
  · split at h
    · simp only [Prod.mk.injEq] at h
      exact h.1.symm
    · split at h
      · simp at h
      · rename_i s2 e2 heq
        simp only [Prod.mk.injEq] at h
        split at heq
        · simp only [Prod.mk.injEq] at heq
          rw [← h.1, ← heq.1]
        · simp at heq

theorem createPR_ok_shape {s s' : Mem} {a b c : String} {n : Nat}
    {pr : PullRequest} (h : Mem.createPR s a b c n = (s', .ok pr)) :
    ∃ author, s.users.find? (fun u => u.userID == c) = some author ∧
      pr = ⟨a, b, c, PRStatusOpen,
        pickReviewers (s.users.filter (fun u => u.teamName == author.teamName))
          c, n, none⟩ ∧
      s' = { s with prs := s.prs ++ [pr] } := by
  simp only [Mem.createPR, PRUseCase.CreatePR, memStorage_prGetByID,
    Mem.prGetByID, memStorage_userGetByID, Mem.userGetByID,
    memStorage_userListByTeam, Mem.userListByTeam, memStorage_prCreate,
    Mem.prCreate] at h
  split at h
  · simp at h
  · split at h
    · simp at h
    · rename_i x author heqa
      split at h
      · rename_i s2 u2 heq
        simp only [Prod.mk.injEq] at h
        split at heq
        · simp at heq
        · simp only [Prod.mk.injEq] at heq
          obtain ⟨hs2, -⟩ := heq
          obtain ⟨hs', hpr⟩ := h
          injection hpr with hpr
          cases hfa : s.users.find? (fun u => u.userID == c) with
          | none => rw [hfa] at heqa; simp at heqa
          | some au =>
            rw [hfa] at heqa
            injection heqa with heqa
            subst heqa
            subst hpr
            exact ⟨au, rfl, rfl, by rw [← hs', ← hs2]⟩
      · simp at h

theorem reassign_error_state {s s' : Mem} {prID oldU : String} {e : Err}
    (h : Mem.reassignReviewer s prID oldU = (s', .error e)) : s' = s := by
  simp only [Mem.reassignReviewer, PRUseCase.ReassignReviewer,
    memStorage_prGetByID, Mem.prGetByID, memStorage_userGetByID,
    Mem.userGetByID, memStorage_userListByTeam, Mem.userListByTeam,
    memStorage_prUpdate, Mem.prUpdate] at h
  split at h
  · simp only [Prod.mk.injEq] at h
    exact h.1.symm
  · split at h
    · simp only [Prod.mk.injEq] at h
      exact h.1.symm
    · split at h
      · simp only [Prod.mk.injEq] at h
        exact h.1.symm
      · split at h
        · simp only [Prod.mk.injEq] at h
          exact h.1.symm
        · split at h
          · simp only [Prod.mk.injEq] at h
            exact h.1.symm
          · split at h
            · simp at h
            · rename_i s2 e2 heq
              simp only [Prod.mk.injEq] at h
              split at heq
              · simp at heq
              · simp only [Prod.mk.injEq] at heq
                rw [← h.1, ← heq.1]

theorem prUpdate_ok {s s2 : Mem} {p : PullRequest} {u : Unit}
    (h : Mem.prUpdate s p = (s2, .ok u)) :
    s2 = { s with prs := s.prs.map (fun x =>
      if x.pullRequestID == p.pullRequestID then Mem.applyUpd p x else x) } := by
  unfold Mem.prUpdate at h
  split at h <;> simp only [Prod.mk.injEq] at h
  · exact h.1.symm
  · exact absurd h.2 (by simp)

theorem mergePR_state {s s' : Mem} {prID : String} {now : Nat}
    {r : Except Err PullRequest} (h : Mem.mergePR s prID now = (s', r)) :
    s'.users = s.users ∧
    ∀ q ∈ s'.prs, ∃ q0, q0 ∈ s.prs ∧ q.authorID = q0.authorID ∧
      q.assignedReviewers = q0.assignedReviewers := by
  cases hf : s.prs.find? (fun x => x.pullRequestID == prID) with
  | none =>
    rw [mergePR_not_found now hf, Prod.mk.injEq] at h
    obtain ⟨h1, -⟩ := h
    subst h1
    exact ⟨rfl, fun q hq => ⟨q, hq, rfl, rfl⟩⟩
  | some pr =>
    by_cases hm : (pr.status == PRStatusMerged) = true
    · rw [mergePR_merged now hf hm, Prod.mk.injEq] at h
      obtain ⟨h1, -⟩ := h
      subst h1
      exact ⟨rfl, fun q hq => ⟨q, hq, rfl, rfl⟩⟩
    · rw [mergePR_open now hf (Bool.eq_false_iff.mpr hm), Prod.mk.injEq] at h
      obtain ⟨h1, -⟩ := h
      subst h1
      refine ⟨rfl, fun q hq => ?_⟩
      obtain ⟨x, hx, hfx⟩ := List.mem_map.mp hq
      by_cases hxid : (x.pullRequestID == pr.pullRequestID) = true
      · rw [if_pos hxid] at hfx
        exact ⟨pr, List.mem_of_find?_eq_some hf, by rw [← hfx]; rfl,
          by rw [← hfx]; rfl⟩
      · rw [if_neg hxid] at hfx
        exact ⟨x, hx, by rw [← hfx], by rw [← hfx]⟩

/-- The storage invariant holds in every reachable state: unique user
ids, and every stored PR satisfies the documented PR invariant. -/
theorem stateInv_of_reach {s : Mem} (h : Reach s) :
    (s.users.map User.userID).Nodup ∧ ∀ q ∈ s.prs, PRInv q := by
  induction h with
  | init users hnd => exact ⟨hnd, by simp⟩
  | create s0 prID prName authorID now s' r hr heq ih =>
    cases r with
    | error e =>
      rw [createPR_error_state heq]
      exact ih
    | ok pr =>
      obtain ⟨author, hauth, hpr, hs'⟩ := createPR_ok_shape heq
      subst hs'
      refine ⟨ih.1, fun q hq => ?_⟩
      rw [List.mem_append, List.mem_singleton] at hq
      rcases hq with hq | hq
      · exact ih.2 q hq
      · subst hq
        subst hpr
        have hros : ((s0.users.filter
            (fun u => u.teamName == author.teamName)).map User.userID).Nodup :=
          ((List.filter_sublist s0.users).map User.userID).nodup ih.1
        constructor
        · intro hmem
          rcases pickLoop_mem hmem with hin | ⟨m, -, hid, hna, -⟩
          · simp at hin
          · exact hna hid
        · exact pickLoop_nodup hros List.nodup_nil (by simp)
  | merge s0 prID now s' r hr heq ih =>
    obtain ⟨hu, hq⟩ := mergePR_state heq
    refine ⟨by rw [hu]; exact ih.1, fun q hqm => ?_⟩
    obtain ⟨q0, hq0, ha, hrev⟩ := hq q hqm
    have hi := ih.2 q0 hq0
    exact ⟨by rw [ha, hrev]; exact hi.1, by rw [hrev]; exact hi.2⟩
  | reassign s0 prID oldU s' r hr heq ih =>
    cases r with
    | error e =>
      rw [reassign_error_state heq]
      exact ih
    | ok v =>
      rcases v with ⟨pr', newID⟩
      obtain ⟨pr, rs, author, hf, hm, hrem, hauth, hrep, hne, hpr', hupd⟩ :=
        reassign_ok_shape heq
      have hs' := prUpdate_ok hupd
      subst hs'
      refine ⟨ih.1, fun q hq => ?_⟩
      obtain ⟨x, hx, hfx⟩ := List.mem_map.mp hq
      have hprinv := ih.2 pr (List.mem_of_find?_eq_some hf)
      by_cases hxid : (x.pullRequestID ==
          (PullRequest.mk pr.pullRequestID pr.pullRequestName pr.authorID
            pr.status (rs ++ [newID]) pr.createdAt
            pr.mergedAt).pullRequestID) = true
      · rw [if_pos hxid] at hfx
        obtain ⟨m, hmro, hmid, hmna, hmact, hmnasg, hmnold⟩ :=
          findReplacement_some hrep hne
        have hrm := removeReviewer_nodup hrem hprinv.2
        have hsub := removeReviewer_subset hrem
        rw [← hfx]
        constructor
        · show pr.authorID ∉ rs ++ [newID]
          simp only [List.mem_append, List.mem_singleton, not_or]
          exact ⟨fun hin => hprinv.1 (hsub.1 _ hin),
            fun he => (hmid ▸ hmna) he.symm⟩
        · show (rs ++ [newID]).Nodup
          rw [List.nodup_append]
          exact ⟨hrm.1, List.nodup_singleton _,
            fun y hy1 hy2 => by
              rw [List.mem_singleton] at hy2
              subst hy2
              exact (hmid ▸ hmnasg) hy1⟩
      · rw [if_neg hxid] at hfx
        rw [← hfx]
        exact ih.2 x hx

/-! ## Claim C5 -/

/-- C5: every PR in a state reachable through `CreatePR`, `MergePR` and
`ReassignReviewer` has a reviewer set that never contains the PR's
author and never contains duplicates. -/
theorem C5_reviewers_invariant (s : Mem) (h : Reach s) :
    ∀ pr ∈ s.prs, pr.authorID ∉ pr.assignedReviewers ∧
      pr.assignedReviewers.Nodup :=
  fun pr hpr => (stateInv_of_reach h).2 pr hpr

theorem C5_witness :
    ("u1" : String) ∉ (["u2", "u3"] : List String) ∧
      (["u2", "u3"] : List String).Nodup := by
  have hbase : Reach c2aMem := by
    rw [show c2aMem = (⟨[⟨"u1", "Alice", "t", true⟩, ⟨"u2", "Bob", "t", true⟩,
      ⟨"u3", "Carl", "t", true⟩], []⟩ : Mem) by decide]
    exact Reach.init _ (by decide)
  exact C5_reviewers_invariant _
    (Reach.create c2aMem "pr1" "n" "u1" 0 _ _ hbase rfl)
    ⟨"pr1", "n", "u1", PRStatusOpen, ["u2", "u3"], 0, none⟩ (by decide)

/-! ## Claim C6 -/

/-- C6: on a MERGED PR, `ReassignReviewer` fails `PRMerged` and leaves
the storage state (hence every field of the stored PR) untouched; on an
OPEN PR whose reviewer set does not contain `oldUserID`, it fails
`NotAssigned` with the storage state unchanged. -/
theorem C6_error_paths (s : Mem) (prID oldUserID : String)
    (pr : PullRequest) (hget : Mem.prGetByID s prID = .ok pr) :
    (pr.status = PRStatusMerged →
      Mem.reassignReviewer s prID oldUserID = (s, .error .prMerged)) ∧
    (pr.status ≠ PRStatusMerged → oldUserID ∉ pr.assignedReviewers →
      Mem.reassignReviewer s prID oldUserID = (s, .error .notAssigned)) := by
  rw [prGetByID_ok] at hget
  refine ⟨fun hm => ?_, fun hm hold => ?_⟩
  · exact reassign_merged hget (by rw [hm]; exact beq_self_eq_true _)
  · exact reassign_not_assigned hget (beq_eq_false_iff_ne.mpr hm)
      (removeReviewer_none.mpr hold)

theorem C6_witness :
    Mem.reassignReviewer c6mMem "pr1" "u2" = (c6mMem, .error .prMerged) ∧
    Mem.reassignReviewer c6oMem "pr1" "u7" = (c6oMem, .error .notAssigned) :=
  ⟨(C6_error_paths c6mMem "pr1" "u2"
      ⟨"pr1", "n", "u1", PRStatusMerged, ["u2"], 0, some 1⟩ rfl).1 rfl,
   (C6_error_paths c6oMem "pr1" "u7"
      ⟨"pr1", "n", "u1", PRStatusOpen, ["u2"], 0, none⟩ rfl).2
      (by decide) (by decide)⟩

/-! ## Claim C7 -/

theorem prCounts_eq (l : List PullRequest) (o m t : Nat) :
    PRUseCase.prCounts l (o, m, t) =
      (o + (l.filter (fun pr => pr.status == PRStatusOpen)).length,
       m + (l.filter (fun pr => pr.status == PRStatusMerged)).length,
       t + (l.map (fun pr => pr.assignedReviewers.length)).sum) := by
  induction l generalizing o m t with
  | nil => simp [PRUseCase.prCounts]
  | cons pr rest ih =>
    by_cases ho : (pr.status == PRStatusOpen) = true
    · have hm : (pr.status == PRStatusMerged) = false := by
        have hs : pr.status = PRStatusOpen := eq_of_beq ho
        rw [hs]; rfl
      simp only [PRUseCase.prCounts, ho, if_true, ih, List.filter_cons,
        List.map_cons, List.sum_cons, List.length_cons, hm,
        Bool.false_eq_true, if_false]
      refine congrArg₂ Prod.mk ?_ (congrArg₂ Prod.mk ?_ ?_) <;> omega
    · by_cases hm : (pr.status == PRStatusMerged) = true
      · simp only [PRUseCase.prCounts, ho, Bool.false_eq_true, if_false, hm,
          if_true, ih, List.filter_cons, List.map_cons, List.sum_cons,
          List.length_cons]
        refine congrArg₂ Prod.mk ?_ (congrArg₂ Prod.mk ?_ ?_) <;> omega
      · simp only [PRUseCase.prCounts, ho, hm, Bool.false_eq_true, if_false,
          ih, List.filter_cons, List.map_cons, List.sum_cons,
          List.length_cons]
        refine congrArg₂ Prod.mk ?_ (congrArg₂ Prod.mk ?_ ?_) <;> omega

theorem activeCount_eq (l : List User) (a : Nat) :
    PRUseCase.activeCount l a = a + (l.filter (fun u => u.isActive)).length := by
  induction l generalizing a with
  | nil => simp [PRUseCase.activeCount]
  | cons u rest ih =>
    by_cases hu : u.isActive = true
    · simp only [PRUseCase.activeCount, hu, if_true, ih, List.filter_cons,
        List.length_cons]
      omega
    · simp only [PRUseCase.activeCount, hu, Bool.false_eq_true, if_false, ih,
        List.filter_cons]

/-- C7: `GetStats` reads the PR and user tables and returns the six
aggregates: total PR count, total user count, OPEN count, MERGED count,
active-user count, and the average number of reviewers per PR — the sum
of reviewer-list lengths divided by the PR count, and exactly `0` when
there are no PRs.  Its type (`Mem → Except Err Stats`, no output state)
reflects that the Go method calls no storage mutation. -/
theorem C7_stats (s : Mem) :
    Mem.getStats s = .ok
      { totalPRs := s.prs.length
        totalUsers := s.users.length
        openPRs := (s.prs.filter (fun pr => pr.status == PRStatusOpen)).length
        mergedPRs :=
          (s.prs.filter (fun pr => pr.status == PRStatusMerged)).length
        activeUsers := (s.users.filter (fun u => u.isActive)).length
        averageReviewers :=
          if 0 < s.prs.length then
            (sumReviewers s.prs : ℚ) / (s.prs.length : ℚ)
          else 0 } := by
  simp only [Mem.getStats, PRUseCase.GetStats, memStorage_prListAll,
    Mem.prListAll, memStorage_userListAll, Mem.userListAll, prCounts_eq,
    activeCount_eq, sumReviewers, Nat.zero_add, gt_iff_lt]

/-! ## Characterization of `CreatePR` on the in-memory storage -/

theorem createPR_ok (s : Mem) (prID prName authorID : String) (now : Nat)
    (author : User)
    (hfresh : s.prs.find? (fun x => x.pullRequestID == prID) = none)
    (hauth : s.users.find? (fun u => u.userID == authorID) = some author) :
    Mem.createPR s prID prName authorID now =
      ({ s with prs := s.prs ++ [⟨prID, prName, authorID, PRStatusOpen,
          pickReviewers
            (s.users.filter (fun u => u.teamName == author.teamName)) authorID,
          now, none⟩] },
       .ok ⟨prID, prName, authorID, PRStatusOpen,
          pickReviewers
            (s.users.filter (fun u => u.teamName == author.teamName)) authorID,
          now, none⟩) := by
  have hnotany : s.prs.any (fun x => x.pullRequestID == prID) = false := by
    rw [Bool.eq_false_iff]
    intro hany
    obtain ⟨x, hx, hp⟩ := List.any_eq_true.mp hany
    exact List.find?_eq_none.mp hfresh x hx hp
  simp only [Mem.createPR, PRUseCase.CreatePR, memStorage_prGetByID,
    Mem.prGetByID, hfresh, memStorage_userGetByID, Mem.userGetByID, hauth,
    memStorage_userListByTeam, Mem.userListByTeam, memStorage_prCreate,
    Mem.prCreate, hnotany, Bool.false_eq_true, if_false]

/-! ## Claim C2 -/

/-- C2: with a unique-keyed user table, a fresh PR id and an existing
author, `CreatePR` assigns exactly 2 distinct reviewers (neither the
author) when the author's roster has at least 2 active non-author
members, and succeeds with an empty reviewer set when it has none. -/
theorem C2_create_reviewer_count (s : Mem) (prID prName authorID : String)
    (now : Nat) (author : User)
    (hnd : (s.users.map User.userID).Nodup)
    (hfresh : s.prs.find? (fun x => x.pullRequestID == prID) = none)
    (hauth : s.users.find? (fun u => u.userID == authorID) = some author) :
    (2 ≤ ((s.users.filter (fun u => u.teamName == author.teamName)).filter
        (fun m => m.userID != authorID && m.isActive)).length →
      ∃ s' pr, Mem.createPR s prID prName authorID now = (s', .ok pr) ∧
        pr.assignedReviewers.length = 2 ∧ pr.assignedReviewers.Nodup ∧
        authorID ∉ pr.assignedReviewers) ∧
    (((s.users.filter (fun u => u.teamName == author.teamName)).filter
        (fun m => m.userID != authorID && m.isActive)).length = 0 →
      ∃ s', Mem.createPR s prID prName authorID now =
        (s', .ok ⟨prID, prName, authorID, PRStatusOpen, [], now, none⟩)) := by
  have hros : ((s.users.filter
      (fun u => u.teamName == author.teamName)).map User.userID).Nodup :=
    ((List.filter_sublist s.users).map User.userID).nodup hnd
  constructor
  · intro h2
    refine ⟨_, _, createPR_ok s prID prName authorID now author hfresh hauth, ?_, ?_, ?_⟩
    · rw [pickReviewers, pickLoop_length _ _ (by simp)]
      simp only [List.length_nil, Nat.zero_add]
      omega
    · exact pickLoop_nodup hros List.nodup_nil (by simp)
    · intro hmem
      rcases pickLoop_mem hmem with hin | ⟨m, -, hid, hna, -⟩
      · simp at hin
      · exact hna hid
  · intro h0
    have hlen : (pickReviewers
        (s.users.filter (fun u => u.teamName == author.teamName))
        authorID).length = 0 := by
      rw [pickReviewers, pickLoop_length _ _ (by simp)]
      simp only [List.length_nil, Nat.zero_add, h0]
      rfl
    have hempty := List.length_eq_zero.mp hlen
    have heq := createPR_ok s prID prName authorID now author hfresh hauth
    rw [hempty] at heq
    exact ⟨_, heq⟩

theorem C2_witness :
    (∃ s' pr, Mem.createPR c2aMem "pr1" "n" "u1" 0 = (s', .ok pr) ∧
      pr.assignedReviewers.length = 2 ∧ pr.assignedReviewers.Nodup ∧
      "u1" ∉ pr.assignedReviewers) ∧
    (∃ s', Mem.createPR c2bMem "pr1" "n" "u1" 0 =
      (s', .ok ⟨"pr1", "n", "u1", PRStatusOpen, [], 0, none⟩)) :=
  ⟨(C2_create_reviewer_count c2aMem "pr1" "n" "u1" 0 ⟨"u1", "Alice", "t", true⟩
      (by decide) rfl (by decide)).1 (by decide),
   (C2_create_reviewer_count c2bMem "pr1" "n" "u1" 0 ⟨"u1", "Alice", "t", true⟩
      (by decide) rfl (by decide)).2 (by decide)⟩

/-! ## Lemmas for `DeactivateTeam` -/

theorem deacLoop_append (σ : Type) (S : Storage σ) (s : σ)
    (us1 us2 : List User) :
    PRUseCase.deactivateLoop S s (us1 ++ us2) =
      match PRUseCase.deactivateLoop S s us1 with
      | (s1, .ok _) => PRUseCase.deactivateLoop S s1 us2
      | (s1, .error e) => (s1, .error e) := by
  induction us1 generalizing s with
  | nil => simp [PRUseCase.deactivateLoop]
  | cons u rest ih =>
    rw [List.cons_append]
    cases hu : S.userUpdate s { u with isActive := false } with
    | mk s2 r2 =>
      cases r2 <;> simp [PRUseCase.deactivateLoop, hu, ih]

theorem userUpdate_ok {s s2 : Mem} {u : User} {t : Unit}
    (h : Mem.userUpdate s u = (s2, .ok t)) :
    s2 = { s with users := s.users.map (fun x =>
      if x.userID == u.userID then Mem.applyUserUpd u x else x) } := by
  unfold Mem.userUpdate at h
  split at h <;> simp only [Prod.mk.injEq] at h
  · exact h.1.symm
  · exact absurd h.2 (by simp)

/-- Lookup `find?` by user id commutes with a map that preserves user ids. -/
theorem find?_map_user {f : User → User}
    (hf : ∀ x, (f x).userID = x.userID) {U : List User} {i : String}
    {v : User} (h : U.find? (fun x => x.userID == i) = some v) :
    (U.map f).find? (fun x => x.userID == i) = some (f v) := by
  induction U with
  | nil => simp at h
  | cons a rest ih =>
    rw [List.map_cons]
    by_cases ha : (a.userID == i) = true
    · simp only [List.find?_cons, ha] at h
      injection h with h
      subst h
      simp only [List.find?_cons, hf, ha]
    · simp only [List.find?_cons, ha, Bool.false_eq_true, if_false] at h
      simp only [List.find?_cons, hf, ha, Bool.false_eq_true, if_false]
      exact ih h

/-- In a unique-keyed user table, `find?` by a member's id returns that
member. -/
theorem find?_self_of_nodup {U : List User}
    (hnd : (U.map User.userID).Nodup) {x : User} (hx : x ∈ U) :
    U.find? (fun y => y.userID == x.userID) = some x := by
  induction U with
  | nil => simp at hx
  | cons a rest ih =>
    rw [List.map_cons, List.nodup_cons] at hnd
    by_cases ha : (a.userID == x.userID) = true
    · have hax : a = x := by
        rcases List.mem_cons.mp hx with h1 | h1
        · exact h1.symm
        · exact absurd (eq_of_beq ha ▸ List.mem_map_of_mem User.userID h1)
            hnd.1
      subst hax
      simp only [List.find?_cons, ha]
    · have hxr : x ∈ rest := by
        rcases List.mem_cons.mp hx with h1 | h1
        · exact absurd (by rw [h1]; exact beq_self_eq_true _) ha
        · exact h1
      simp only [List.find?_cons, ha, Bool.false_eq_true, if_false]
      exact ih hnd.2 hxr

/-- The per-user update loop of `DeactivateTeam` on the in-memory
storage: processing a duplicate-free worklist of current rows
deactivates exactly the rows whose ids are on the worklist. -/
theorem deacLoop_mem (m : Mem) (ws : List User)
    (hnd : (m.users.map User.userID).Nodup)
    (hws : ∀ w ∈ ws, w ∈ m.users)
    (hwnd : (ws.map User.userID).Nodup) :
    PRUseCase.deactivateLoop memStorage m ws =
      ({ users := m.users.map (fun x =>
          if (ws.map User.userID).contains x.userID then
            { x with isActive := false } else x), prs := m.prs },
       .ok ()) := by
  induction ws generalizing m with
  | nil =>
    cases m with
    | mk us ps =>
      simp [PRUseCase.deactivateLoop]
  | cons w rest ih =>
    have hwmem : w ∈ m.users := hws w (by simp)
    have hany : m.users.any (fun x => x.userID == w.userID) = true :=
      List.any_eq_true.mpr ⟨w, hwmem, by simp⟩
    have hupd : Mem.userUpdate m { w with isActive := false } =
        ({ m with users := m.users.map (fun x =>
            if x.userID == w.userID then
              Mem.applyUserUpd { w with isActive := false } x else x) }, .ok ()) := by
      unfold Mem.userUpdate
      rw [if_pos hany]
    rw [List.map_cons, List.nodup_cons] at hwnd
    have hids : ∀ x, ((fun x =>
        if x.userID == w.userID then
          Mem.applyUserUpd { w with isActive := false } x else x) x).userID =
        x.userID := by
      intro x
      show (if x.userID == w.userID then
        Mem.applyUserUpd { w with isActive := false } x else x).userID =
        x.userID
      by_cases hx : (x.userID == w.userID) = true
      · rw [if_pos hx]; rfl
      · rw [if_neg hx]
    have hids' : (m.users.map (fun x =>
        if x.userID == w.userID then
          Mem.applyUserUpd { w with isActive := false } x else x)).map
          User.userID = m.users.map User.userID := by
      rw [List.map_map]
      exact List.map_congr_left fun x _ => hids x
    show PRUseCase.deactivateLoop memStorage m (w :: rest) = _
    simp only [PRUseCase.deactivateLoop, memStorage_userUpdate, hupd]
    have ihm := ih { m with users := m.users.map (fun x =>
        if x.userID == w.userID then
          Mem.applyUserUpd { w with isActive := false } x else x) }
      (by
        have hnd2 := hnd
        rw [← hids'] at hnd2
        exact hnd2)
      (fun v hv => by
        have hvu : v ∈ m.users := hws v (by simp [hv])
        have hne : (v.userID == w.userID) = false := by
          rw [Bool.eq_false_iff]
          intro hb
          exact hwnd.1 (eq_of_beq hb ▸ List.mem_map_of_mem User.userID hv)
        have hm := List.mem_map_of_mem (fun x =>
          if x.userID == w.userID then
            Mem.applyUserUpd { w with isActive := false } x else x) hvu
        simp only at hm
        rw [if_neg (Bool.eq_false_iff.mp hne)] at hm
        exact hm)
      hwnd.2
    rw [ihm]
    refine congrArg₂ Prod.mk ?_ rfl
    refine congrArg₂ Mem.mk ?_ rfl
    rw [List.map_map]
    refine List.map_congr_left fun x hx => ?_
    by_cases hxw : (x.userID == w.userID) = true
    · have hxeq : x = w := by
        have hwfirst := find?_self_of_nodup hnd hwmem
        have hxfirst := find?_self_of_nodup hnd hx
        rw [eq_of_beq hxw] at hxfirst
        rw [hwfirst] at hxfirst
        injection hxfirst with hxv
        exact hxv.symm
      subst hxeq
      by_cases hc : ((rest.map User.userID).contains x.userID) = true
      · simp [hc, Mem.applyUserUpd, List.contains_cons]
      · simp [hc, Mem.applyUserUpd, List.contains_cons]
    · have hne : ¬(x.userID = w.userID) :=
        fun he => hxw (by rw [he]; exact beq_self_eq_true _)
      by_cases hc : ((rest.map User.userID).contains x.userID) = true
      · simp [hc, hne, Mem.applyUserUpd, List.contains_cons]
      · simp [hc, hne, Mem.applyUserUpd, List.contains_cons]

/-! ## Claim C9 -/

/-- C9: `DeactivateTeam` reads the team roster and persists each user
individually in roster order with `is_active = false`.  If the update
of some user fails after a prefix of the roster was updated
successfully, the error is returned immediately: the remaining users
are never processed and the committed prefix is not rolled back
(partial completion).  When every update succeeds (the in-memory
storage), exactly the team's rows end up deactivated. -/
theorem C9_deactivate_team (σ : Type) (S : Storage σ) (s s1 s2 : σ)
    (team : String) (us1 : List User) (u : User) (us2 : List User) (e : Err)
    (m : Mem) (hnd : (m.users.map User.userID).Nodup) :
    (S.userListByTeam s team = .ok (us1 ++ u :: us2) →
      PRUseCase.deactivateLoop S s us1 = (s1, .ok ()) →
      S.userUpdate s1 { u with isActive := false } = (s2, .error e) →
      PRUseCase.DeactivateTeam S s team = (s2, .error e)) ∧
    (Mem.deactivateTeam m team =
      (⟨m.users.map (fun x =>
          if x.teamName == team then { x with isActive := false } else x),
        m.prs⟩, .ok ())) := by
  constructor
  · intro hlist hok hfail
    simp only [PRUseCase.DeactivateTeam, hlist]
    rw [deacLoop_append, hok]
    simp only [PRUseCase.deactivateLoop, hfail]
  · have hsub : ∀ w ∈ m.users.filter (fun x => x.teamName == team),
        w ∈ m.users := fun w hw => List.mem_of_mem_filter hw
    have hfnd : ((m.users.filter
        (fun x => x.teamName == team)).map User.userID).Nodup :=
      ((List.filter_sublist m.users).map User.userID).nodup hnd
    simp only [Mem.deactivateTeam, PRUseCase.DeactivateTeam,
      memStorage_userListByTeam, Mem.userListByTeam]
    rw [deacLoop_mem m _ hnd hsub hfnd]
    refine congrArg₂ Prod.mk ?_ rfl
    refine congrArg₂ Mem.mk ?_ rfl
    refine List.map_congr_left fun x hx => ?_
    by_cases ht : (x.teamName == team) = true
    · have hcx : (((m.users.filter (fun y => y.teamName == team)).map
          User.userID).contains x.userID) = true := by
        have hxf : x ∈ m.users.filter (fun y => y.teamName == team) :=
          List.mem_filter.mpr ⟨hx, ht⟩
        exact List.elem_eq_true_of_mem (List.mem_map_of_mem User.userID hxf)
      rw [hcx, if_pos rfl, if_pos ht]
    · have hcx : (((m.users.filter (fun y => y.teamName == team)).map
          User.userID).contains x.userID) = false := by
        rw [Bool.eq_false_iff]
        intro hc
        have hmem := List.contains_iff_exists_mem_beq.mp hc
        obtain ⟨i, hi, hib⟩ := hmem
        obtain ⟨y, hyf, hyid⟩ := List.mem_map.mp hi
        have hyx : y = x := by
          have hyfirst := find?_self_of_nodup hnd (hsub y hyf)
          have hyidx : y.userID = x.userID := by
            rw [hyid, ← eq_of_beq hib]
          rw [hyidx] at hyfirst
          have hxfirst := find?_self_of_nodup hnd hx
          rw [hyfirst] at hxfirst
          injection hxfirst with hxv
        exact absurd (hyx ▸ (List.mem_filter.mp hyf).2) ht
      rw [hcx]
      simp only [Bool.false_eq_true, if_false, ht]

theorem C9_witness :
    (PRUseCase.DeactivateTeam updateFailStorage c2aMem "t" =
      (⟨[⟨"u1", "Alice", "t", false⟩, ⟨"u2", "Bob", "t", true⟩,
        ⟨"u3", "Carl", "t", true⟩], []⟩, .error .repoFail)) ∧
    (Mem.deactivateTeam c2aMem "t" =
      (⟨[⟨"u1", "Alice", "t", false⟩, ⟨"u2", "Bob", "t", false⟩,
        ⟨"u3", "Carl", "t", false⟩], []⟩, .ok ())) := by
  have happ := C9_deactivate_team Mem updateFailStorage c2aMem
    ⟨[⟨"u1", "Alice", "t", false⟩, ⟨"u2", "Bob", "t", true⟩,
      ⟨"u3", "Carl", "t", true⟩], []⟩
    ⟨[⟨"u1", "Alice", "t", false⟩, ⟨"u2", "Bob", "t", true⟩,
      ⟨"u3", "Carl", "t", true⟩], []⟩
    "t" [⟨"u1", "Alice", "t", true⟩] ⟨"u2", "Bob", "t", true⟩
    [⟨"u3", "Carl", "t", true⟩] Err.repoFail c2aMem (by decide)
  exact ⟨happ.1 rfl rfl rfl, happ.2⟩

/-! ## Claim C8 -/

/-- C8, over an arbitrary storage back end: `CreatePR` fails `PRExists`
when a PR with the id is already present (a successful read returning a
non-empty id), fails `NotFound` when the author read fails or the
roster read fails, and otherwise builds the PR with status OPEN,
persists it through `PRRepo.Create`, and returns it. -/
theorem C8_create_paths (σ : Type) (S : Storage σ) (s : σ)
    (prID prName authorID : String) (now : Nat) :
    (∀ existing, S.prGetByID s prID = .ok existing →
      existing.pullRequestID ≠ "" →
      PRUseCase.CreatePR S s prID prName authorID now =
        (s, .error .prExists)) ∧
    ((∀ existing, S.prGetByID s prID = .ok existing →
        existing.pullRequestID = "") →
      ∀ e, S.userGetByID s authorID = .error e →
      PRUseCase.CreatePR S s prID prName authorID now =
        (s, .error .notFound)) ∧
    ((∀ existing, S.prGetByID s prID = .ok existing →
        existing.pullRequestID = "") →
      ∀ author e, S.userGetByID s authorID = .ok author →
      S.userListByTeam s author.teamName = .error e →
      PRUseCase.CreatePR S s prID prName authorID now =
        (s, .error .notFound)) ∧
    ((∀ existing, S.prGetByID s prID = .ok existing →
        existing.pullRequestID = "") →
      ∀ author teamMembers s',
      S.userGetByID s authorID = .ok author →
      S.userListByTeam s author.teamName = .ok teamMembers →
      S.prCreate s ⟨prID, prName, authorID, PRStatusOpen,
        pickReviewers teamMembers authorID, now, none⟩ = (s', .ok ()) →
      PRUseCase.CreatePR S s prID prName authorID now =
        (s', .ok ⟨prID, prName, authorID, PRStatusOpen,
          pickReviewers teamMembers authorID, now, none⟩)) := by
  have hex_of : ∀ (_ : ∀ existing, S.prGetByID s prID = .ok existing →
      existing.pullRequestID = ""),
      (match S.prGetByID s prID with
        | .ok existing => existing.pullRequestID != ""
        | .error _ => false) = false := by
    intro hfr
    cases hg : S.prGetByID s prID with
    | ok ex => simpa using hfr ex hg
    | error e => rfl
  refine ⟨?_, ?_, ?_, ?_⟩
  · intro ex hg hne
    have hb : (match S.prGetByID s prID with
        | .ok existing => existing.pullRequestID != ""
        | .error _ => false) = true := by
      rw [hg]
      simpa using hne
    simp only [PRUseCase.CreatePR, hb, if_true]
  · intro hfr e hu
    simp only [PRUseCase.CreatePR, hex_of hfr, Bool.false_eq_true, if_false,
      hu]
  · intro hfr author e hu hl
    simp only [PRUseCase.CreatePR, hex_of hfr, Bool.false_eq_true, if_false,
      hu, hl]
  · intro hfr author teamMembers s' hu hl hc
    simp only [PRUseCase.CreatePR, hex_of hfr, Bool.false_eq_true, if_false,
      hu, hl, hc]

theorem C8_witness :
    (PRUseCase.CreatePR memStorage c6oMem "pr1" "n" "u1" 0 =
      (c6oMem, .error .prExists)) ∧
    (PRUseCase.CreatePR memStorage c2aMem "pr9" "n" "zz" 0 =
      (c2aMem, .error .notFound)) ∧
    (PRUseCase.CreatePR rosterFailStorage c2aMem "pr9" "n" "u1" 0 =
      (c2aMem, .error .notFound)) ∧
    (PRUseCase.CreatePR memStorage c2bMem "pr9" "n" "u1" 5 =
      ({ c2bMem with prs := c2bMem.prs ++ [⟨"pr9", "n", "u1", PRStatusOpen,
          [], 5, none⟩] },
       .ok ⟨"pr9", "n", "u1", PRStatusOpen, [], 5, none⟩)) :=
  ⟨(C8_create_paths Mem memStorage c6oMem "pr1" "n" "u1" 0).1
      ⟨"pr1", "n", "u1", PRStatusOpen, ["u2"], 0, none⟩ rfl (by decide),
   (C8_create_paths Mem memStorage c2aMem "pr9" "n" "zz" 0).2.1
      (fun ex hg => by simp [memStorage, Mem.prGetByID, c2aMem] at hg)
      Err.repoNotFound rfl,
   (C8_create_paths Mem rosterFailStorage c2aMem "pr9" "n" "u1" 0).2.2.1
      (fun ex hg => by
        simp [rosterFailStorage, memStorage, Mem.prGetByID, c2aMem] at hg)
      ⟨"u1", "Alice", "t", true⟩ Err.repoFail rfl rfl,
   (C8_create_paths Mem memStorage c2bMem "pr9" "n" "u1" 5).2.2.2
      (fun ex hg => by simp [memStorage, Mem.prGetByID, c2bMem] at hg)
      ⟨"u1", "Alice", "t", true⟩
      [⟨"u1", "Alice", "t", true⟩, ⟨"u2", "Bob", "t", false⟩] _ rfl rfl rfl⟩

/-! ## Claim C1 -/

/-- C1: reviewer selection does NOT follow ascending `user_id`:
`UserRepo.ListByTeam` has no ORDER BY, so selection follows stored row
order.  On `c1Mem`, `CreatePR` picks "u9" first although "u2" is an
active non-author member of the same team and "u2" precedes "u9" in the
ascending `user_id` order the spec requires. -/
theorem C1_roster_order_divergence :
    (Mem.createPR c1Mem "pr-9" "x" "u1" 0).2 =
      .ok ⟨"pr-9", "x", "u1", PRStatusOpen, ["u9", "u2"], 0, none⟩ ∧
    (∃ u ∈ c1Mem.users, u.userID = "u2" ∧ u.teamName = "backend" ∧
      u.isActive = true) ∧
    ("u2" : String).data < ("u9" : String).data :=
  ⟨rfl, ⟨⟨"u2", "Bob", "backend", true⟩, by decide, rfl, rfl, rfl⟩, by decide⟩

/-! ## Claim C3 -/

/-- C3: `MergePR` is idempotent — if a call returned `(s1, ok pr1)`,
a second call on `s1` (with any later timestamp) returns the same
record with no error and leaves the storage state `s1` unchanged, so
`merged_at` is never re-stamped. -/
theorem C3_merge_idempotent (s : Mem) (prID : String) (t1 t2 : Nat)
    (s1 : Mem) (pr1 : PullRequest)
    (h : Mem.mergePR s prID t1 = (s1, .ok pr1)) :
    Mem.mergePR s1 prID t2 = (s1, .ok pr1) := by
  cases hf : s.prs.find? (fun x => x.pullRequestID == prID) with
  | none =>
    rw [mergePR_not_found t1 hf] at h
    rw [Prod.mk.injEq] at h
    exact absurd h.2 (by simp)
  | some pr =>
    by_cases hm : (pr.status == PRStatusMerged) = true
    · rw [mergePR_merged t1 hf hm] at h
      rw [Prod.mk.injEq] at h
      obtain ⟨hs, hp⟩ := h
      injection hp with hp
      subst hs hp
      exact mergePR_merged t2 hf hm
    · rw [mergePR_open t1 hf (by simpa using hm)] at h
      rw [Prod.mk.injEq] at h
      obtain ⟨hs, hp⟩ := h
      injection hp with hp
      have hid : pr.pullRequestID = prID := by
        have := List.find?_some hf
        simpa using this
      have hup : Mem.applyUpd
          { pr with status := PRStatusMerged, mergedAt := some t1 } pr =
          { pr with status := PRStatusMerged, mergedAt := some t1 } := rfl
      have hfind1 : s1.prs.find? (fun x => x.pullRequestID == prID) =
          some { pr with status := PRStatusMerged, mergedAt := some t1 } := by
        rw [← hs]
        have := find?_map_applyUpd
          (q := { pr with status := PRStatusMerged, mergedAt := some t1 })
          hid hf
        rw [hup] at this
        exact this
      subst hp
      exact mergePR_merged t2 hfind1 rfl

theorem C3_witness :
    Mem.mergePR
      ⟨[⟨"u1", "Alice", "backend", true⟩],
       [⟨"pr-1003", "Fix DB", "u1", PRStatusMerged, ["u2"], 3, some 7⟩]⟩
      "pr-1003" 99 =
    (⟨[⟨"u1", "Alice", "backend", true⟩],
      [⟨"pr-1003", "Fix DB", "u1", PRStatusMerged, ["u2"], 3, some 7⟩]⟩,
     .ok ⟨"pr-1003", "Fix DB", "u1", PRStatusMerged, ["u2"], 3, some 7⟩) :=
  C3_merge_idempotent c3Mem "pr-1003" 7 99 _ _ rfl

/-! ## Claim C10 -/

/-- C10: merging an OPEN PR changes only `status` (to MERGED) and
`merged_at` (from null to the timestamp); the identifier, name, author,
reviewer list and creation time of the returned and of the persisted
record are the values read from storage. -/
theorem C10_merge_frame (s : Mem) (prID : String) (now : Nat)
    (pr : PullRequest) (hf : Mem.prGetByID s prID = .ok pr)
    (hopen : pr.status = PRStatusOpen) (hnull : pr.mergedAt = none) :
    ∃ s' : Mem,
      Mem.mergePR s prID now =
        (s', .ok { pr with status := PRStatusMerged, mergedAt := some now }) ∧
      s'.users = s.users ∧
      Mem.prGetByID s' prID =
        .ok { pr with status := PRStatusMerged, mergedAt := some now } := by
  rw [prGetByID_ok] at hf
  have hm : (pr.status == PRStatusMerged) = false := by
    rw [hopen]; rfl
  have hid : pr.pullRequestID = prID := by
    have := List.find?_some hf
    simpa using this
  refine ⟨_, mergePR_open now hf hm, rfl, ?_⟩
  rw [prGetByID_ok]
  have h2 := find?_map_applyUpd
    (q := { pr with status := PRStatusMerged, mergedAt := some now }) hid hf
  have h3 : Mem.applyUpd
      { pr with status := PRStatusMerged, mergedAt := some now } pr =
      { pr with status := PRStatusMerged, mergedAt := some now } := rfl
  rw [h3] at h2
  exact h2

theorem C10_witness :
    ∃ s' : Mem,
      Mem.mergePR c3Mem "pr-1003" 7 =
        (s', .ok ⟨"pr-1003", "Fix DB", "u1", PRStatusMerged, ["u2"], 3, some 7⟩) ∧
      s'.users = c3Mem.users ∧
      Mem.prGetByID s' "pr-1003" =
        .ok ⟨"pr-1003", "Fix DB", "u1", PRStatusMerged, ["u2"], 3, some 7⟩ :=
  C10_merge_frame c3Mem "pr-1003" 7
    ⟨"pr-1003", "Fix DB", "u1", PRStatusOpen, ["u2"], 3, none⟩ rfl rfl rfl

end PRService
